import Mathlib

/-!
Verification of the size/duration-adaptive transcription pipeline of
`src/transcriber.py` (class `TranscriptionService`).

The Python module is shallowly embedded below.  Python `float` values are
modelled as exact rationals (`ℚ`); the float literals of the source are
written as the rationals they denote (`0.75 = 3/4`, `0.60 = 3/5`,
`0.5 = 1/2`).  None of the claims settled here depends on a
floating-point rounding boundary.  Subprocess effects (FFmpeg calls) are
modelled as pure data: the chunk planner's geometry assumes each FFmpeg
chunk extraction succeeds, and API calls are modelled by explicit outcome
sequences.  File-system state (for the compression frame-effect claim) is
modelled as an explicit map from path strings to abstract contents.
-/

namespace Transcriber

/-! ### Constants of `transcribe_audio` and `_transcribe_chunked`

`transcribe_audio` (lines 199-216): `max_duration_seconds = 1400`,
`safe_duration_limit = 720`.
`_transcribe_chunked` (lines 1049-1064): the effective per-chunk duration
ceiling derived from the output-token budget. -/

def safe_duration_limit : ℚ := 720

def max_duration_seconds : ℚ := 1400

def max_output_tokens : ℚ := 2048

/-- `words_per_token = 0.75` (line 1054). -/
def words_per_token : ℚ := 3 / 4

/-- `words_per_second = 3.0` (line 1055). -/
def words_per_second : ℚ := 3

/-- `max_words_per_chunk = max_output_tokens * words_per_token` (line 1056). -/
def max_words_per_chunk : ℚ := max_output_tokens * words_per_token

/-- `max_duration_per_chunk_tokens = max_words_per_chunk / words_per_second` (line 1057). -/
def max_duration_per_chunk_tokens : ℚ := max_words_per_chunk / words_per_second

/-- `conservative_limit = max_duration_per_chunk_tokens * 0.60` (line 1060). -/
def conservative_limit : ℚ := max_duration_per_chunk_tokens * (3 / 5)

/-- `api_duration_limit = 1400` (line 1063). -/
def api_duration_limit : ℚ := 1400

/-- `effective_duration_limit = min(api_duration_limit, conservative_limit)`
(line 1064).  Numerically `307.2` seconds. -/
def effective_duration_limit : ℚ := min api_duration_limit conservative_limit

/-! ### Chunk planner: `_create_intelligent_chunks_ffmpeg` (lines 820-931)

The planner computes the chunk count, the equal chunk duration and the
overlap, then walks positions emitting `(start_time, end_time)` pairs.
We model the geometry of the emitted chunks; the FFmpeg extraction of each
chunk is assumed to succeed (its failure merely truncates the list). -/

/-- `chunks_needed = math.ceil(total_duration / max_duration_per_chunk)`
(line 833).  In Python a non-positive total would raise before this model
is used; all claims below constrain `0 < limit < total`. -/
def chunks_needed (total limit : ℚ) : ℕ := (Int.toNat ⌈total / limit⌉)

/-- `optimal_chunk_duration = total_duration / chunks_needed` (line 836). -/
def optimal_chunk_duration (total limit : ℚ) : ℚ :=
  total / (chunks_needed total limit : ℚ)

/-- `chunk_overlap = 0.5 if optimal_chunk_duration > 1350 else 0.0` (line 839). -/
def chunk_overlap_val (total limit : ℚ) : ℚ :=
  if 1350 < optimal_chunk_duration total limit then 1 / 2 else 0

/-- The position-walking loop of `_create_intelligent_chunks_ffmpeg`
(lines 848-929).  `fuel` bounds the iteration count; the loop body can run
at most `n` times because of the `chunk_index >= chunks_needed` break, so
`fuel = n` at the top-level call is exact.  The two position-update
branches of the source (lines 925-929) are kept verbatim even though they
compute the same value. -/
def chunk_loop (total d ov : ℚ) (n : ℕ) : ℕ → ℚ → ℕ → List (ℚ × ℚ)
  | 0, _, _ => []
  | fuel + 1, pos, idx =>
    if pos < total then
      -- start_time = current_pos; end_time = min(current_pos + chunk_duration, total)
      let stime := pos
      let etime := min (pos + d) total
      let actual := etime - stime
      -- if actual_duration < 1.0: break
      if actual < 1 then []
      else
        (stime, etime) ::
          -- chunk_index += 1; if chunk_index >= chunks_needed: break
          (if n ≤ idx + 1 then []
           else
            chunk_loop total d ov n fuel
              (if idx + 1 < n - 1 then pos + (d - ov) else stime + d - ov)
              (idx + 1))
    else []

/-- `_create_intelligent_chunks_ffmpeg(audio_path, total_duration,
effective_duration_limit)`: the list of `(start_time, end_time)` pairs of
the created chunks. -/
def create_intelligent_chunks_ffmpeg (total limit : ℚ) : List (ℚ × ℚ) :=
  chunk_loop total (optimal_chunk_duration total limit) (chunk_overlap_val total limit)
    (chunks_needed total limit) (chunks_needed total limit) 0 0

/-- The chunk plan computed inside `_transcribe_chunked` (line 1071): the
planner is invoked with `effective_duration_limit`, not with the
720-second safe duration ceiling used by the strategy decision. -/
def transcribe_chunked_plan (total : ℚ) : List (ℚ × ℚ) :=
  create_intelligent_chunks_ffmpeg total effective_duration_limit

lemma chunk_loop_closed (total d ov : ℚ) (n : ℕ) (h1 : 1 ≤ d) (hov : 0 ≤ ov)
    (hov2 : ov ≤ 1 / 2) (htot : (n : ℚ) * d = total) :
    ∀ fuel idx, idx < n → fuel = n - idx →
      chunk_loop total d ov n fuel ((idx : ℚ) * (d - ov)) idx =
        (List.range (n - idx)).map
          (fun j => (((idx + j : ℕ) : ℚ) * (d - ov), ((idx + j : ℕ) : ℚ) * (d - ov) + d)) := by
  intro fuel
  induction fuel with
  | zero => intro idx hidx hfuel; omega
  | succ fuel ih =>
    intro idx hidx hfuel
    have hn1 : (1:ℚ) ≤ (n : ℚ) := by exact_mod_cast Nat.one_le_iff_ne_zero.mpr (by omega)
    have hidxQ : (idx : ℚ) ≤ (n : ℚ) - 1 := by
      have : (idx : ℚ) + 1 ≤ (n : ℚ) := by exact_mod_cast hidx
      linarith
    have hdov : (0:ℚ) ≤ d - ov := by linarith
    have hposd : (idx : ℚ) * (d - ov) + d ≤ total := by
      have h2 : (idx : ℚ) * (d - ov) ≤ ((n : ℚ) - 1) * (d - ov) :=
        mul_le_mul_of_nonneg_right hidxQ hdov
      have h3 : ((n : ℚ) - 1) * ov ≥ 0 := mul_nonneg (by linarith) hov
      nlinarith
    have hpos : (idx : ℚ) * (d - ov) < total := by linarith
    have hmin : min ((idx : ℚ) * (d - ov) + d) total = (idx : ℚ) * (d - ov) + d :=
      min_eq_left hposd
    rw [chunk_loop]
    rw [if_pos hpos, hmin]
    have hact : ¬ ((idx : ℚ) * (d - ov) + d - (idx : ℚ) * (d - ov) < 1) := by
      intro h; nlinarith
    rw [if_neg hact]
    by_cases hlast : n ≤ idx + 1
    · rw [if_pos hlast]
      have hni : n - idx = 1 := by omega
      rw [hni]
      simp [List.range_succ]
    · rw [if_neg hlast]
      have hupd : (if idx + 1 < n - 1 then (idx : ℚ) * (d - ov) + (d - ov)
          else (idx : ℚ) * (d - ov) + d - ov) = ((idx + 1 : ℕ) : ℚ) * (d - ov) := by
        push_cast
        split <;> ring
      rw [hupd]
      rw [ih (idx + 1) (by omega) (by omega)]
      have hrange : n - idx = (n - (idx + 1)) + 1 := by omega
      rw [hrange, List.range_succ_eq_map]
      simp only [List.map_cons, List.map_map]
      refine congrArg₂ List.cons (by simp) ?_
      apply List.map_congr_left
      intro j _
      simp only [Function.comp_apply, Nat.succ_eq_add_one]
      rw [show idx + 1 + j = idx + (j + 1) from by omega]


lemma chunks_needed_pos (total limit : ℚ) (h2 : 2 ≤ limit) (hlt : limit < total) :
    2 ≤ chunks_needed total limit ∧
      ((chunks_needed total limit : ℕ) : ℚ) = (⌈total / limit⌉ : ℤ) := by
  have hpos : (0:ℚ) < limit := by linarith
  have hratio : (1:ℚ) < total / limit := (one_lt_div hpos).mpr hlt
  have hceil : (1:ℤ) < ⌈total / limit⌉ := Int.lt_ceil.mpr (by exact_mod_cast hratio)
  constructor
  · unfold chunks_needed
    omega
  · unfold chunks_needed
    have : (0:ℤ) ≤ ⌈total / limit⌉ := by omega
    exact_mod_cast congrArg Int.cast (Int.toNat_of_nonneg this)

lemma optimal_chunk_duration_bounds (total limit : ℚ) (h2 : 2 ≤ limit) (hlt : limit < total) :
    1 ≤ optimal_chunk_duration total limit ∧
      optimal_chunk_duration total limit ≤ limit ∧
      ((chunks_needed total limit : ℕ) : ℚ) * optimal_chunk_duration total limit = total := by
  obtain ⟨hn2, hcast⟩ := chunks_needed_pos total limit h2 hlt
  have hpos : (0:ℚ) < limit := by linarith
  have htot : (0:ℚ) < total := by linarith
  have hnQ : (0:ℚ) < ((chunks_needed total limit : ℕ) : ℚ) := by
    exact_mod_cast Nat.lt_of_lt_of_le (by omega) hn2
  have hne : ((chunks_needed total limit : ℕ) : ℚ) ≠ 0 := ne_of_gt hnQ
  have hceil_le : total / limit ≤ ((chunks_needed total limit : ℕ) : ℚ) := by
    rw [hcast]; exact Int.le_ceil _
  have hn_le_total : ((chunks_needed total limit : ℕ) : ℚ) ≤ total := by
    rw [hcast]
    have h1 : (⌈total / limit⌉ : ℚ) < total / limit + 1 := Int.ceil_lt_add_one _
    have h2' : total / limit ≤ total / 2 :=
      div_le_div_of_nonneg_left (le_of_lt htot) (by norm_num) h2
    linarith
  refine ⟨?_, ?_, ?_⟩
  · unfold optimal_chunk_duration
    rw [le_div_iff₀ hnQ, one_mul]
    exact hn_le_total
  · unfold optimal_chunk_duration
    rw [div_le_iff₀ hnQ]
    calc total ≤ (total / limit) * limit * 1 := by field_simp
    _ ≤ ((chunks_needed total limit : ℕ) : ℚ) * limit := by
        rw [mul_one]
        exact mul_le_mul_of_nonneg_right hceil_le (le_of_lt hpos)
    _ = limit * ((chunks_needed total limit : ℕ) : ℚ) := mul_comm _ _
  · unfold optimal_chunk_duration
    field_simp

lemma chunk_overlap_val_cases (total limit : ℚ) :
    chunk_overlap_val total limit = 0 ∨ chunk_overlap_val total limit = 1 / 2 := by
  unfold chunk_overlap_val
  split
  · right; rfl
  · left; rfl

lemma create_chunks_closed (total limit : ℚ) (h2 : 2 ≤ limit) (hlt : limit < total) :
    create_intelligent_chunks_ffmpeg total limit =
      (List.range (chunks_needed total limit)).map
        (fun j : ℕ => ((j : ℚ) * (optimal_chunk_duration total limit - chunk_overlap_val total limit),
          (j : ℚ) * (optimal_chunk_duration total limit - chunk_overlap_val total limit)
            + optimal_chunk_duration total limit)) := by
  obtain ⟨hn2, _⟩ := chunks_needed_pos total limit h2 hlt
  obtain ⟨h1, _, hnd⟩ := optimal_chunk_duration_bounds total limit h2 hlt
  have hov : 0 ≤ chunk_overlap_val total limit ∧ chunk_overlap_val total limit ≤ 1 / 2 := by
    rcases chunk_overlap_val_cases total limit with h | h <;> rw [h] <;> norm_num
  have hkey := chunk_loop_closed total (optimal_chunk_duration total limit)
    (chunk_overlap_val total limit) (chunks_needed total limit) h1 hov.1 hov.2 hnd
    (chunks_needed total limit) 0 (by omega) (by omega)
  unfold create_intelligent_chunks_ffmpeg
  rw [show ((0:ℕ) : ℚ) * (optimal_chunk_duration total limit - chunk_overlap_val total limit) = 0 by simp] at hkey
  rw [hkey]
  simp

/-! ### Strategy selector (`transcribe_audio`, lines 218-257)

The decision is `direct` iff `final_file_size_mb <= self.max_file_size_mb and
duration_seconds <= safe_duration_limit`; otherwise `chunked`.  The rationale
list is only built on the chunked branch (lines 235-241); its f-string texts
are abstracted to tags. -/

inductive Strategy
  | direct
  | chunked
deriving DecidableEq

inductive ChunkTrigger
  | size_exceeds_api_limit
  | duration_exceeds_safe_limit
  | duration_exceeds_absolute_limit
deriving DecidableEq

/-- The strategy condition of lines 220-221. -/
def strategy_of (final_file_size_mb duration_seconds max_file_size_mb : ℚ) : Strategy :=
  if final_file_size_mb ≤ max_file_size_mb ∧ duration_seconds ≤ safe_duration_limit then
    Strategy.direct
  else Strategy.chunked

/-- The `reasons` list of lines 235-241, present only on the chunked branch. -/
def strategy_triggers (final_file_size_mb duration_seconds max_file_size_mb : ℚ) :
    List ChunkTrigger :=
  match strategy_of final_file_size_mb duration_seconds max_file_size_mb with
  | Strategy.direct => []
  | Strategy.chunked =>
    (if max_file_size_mb < final_file_size_mb then [ChunkTrigger.size_exceeds_api_limit]
     else []) ++
    (if safe_duration_limit < duration_seconds then [ChunkTrigger.duration_exceeds_safe_limit]
     else []) ++
    (if max_duration_seconds < duration_seconds
     then [ChunkTrigger.duration_exceeds_absolute_limit] else [])

/-- C2: for every total duration strictly greater than the effective per-chunk
ceiling, the planner computes `chunks_needed = ceil(total / ceiling)` and
divides the total into that many equal-length segments; each segment lasts at
most the ceiling and at least 1 second (so none is dropped), and the segment
durations sum to the total duration.  The hypothesis `2 ≤ limit` excludes
only degenerate sub-2-second ceilings (the pipeline uses 307.2 s). -/
theorem chunk_planner_equal_segments (total limit : ℚ) (h2 : 2 ≤ limit)
    (hlt : limit < total) :
    (create_intelligent_chunks_ffmpeg total limit).length = chunks_needed total limit ∧
    chunks_needed total limit = Int.toNat ⌈total / limit⌉ ∧
    (∀ c ∈ create_intelligent_chunks_ffmpeg total limit,
      c.2 - c.1 = optimal_chunk_duration total limit) ∧
    (∀ c ∈ create_intelligent_chunks_ffmpeg total limit, c.2 - c.1 ≤ limit) ∧
    (∀ c ∈ create_intelligent_chunks_ffmpeg total limit, 1 ≤ c.2 - c.1) ∧
    ((create_intelligent_chunks_ffmpeg total limit).map (fun c => c.2 - c.1)).sum = total := by
  obtain ⟨h1, hle, hnd⟩ := optimal_chunk_duration_bounds total limit h2 hlt
  rw [create_chunks_closed total limit h2 hlt]
  refine ⟨by simp, rfl, ?_, ?_, ?_, ?_⟩
  · intro c hc
    simp only [List.mem_map, List.mem_range] at hc
    obtain ⟨j, _, rfl⟩ := hc
    ring
  · intro c hc
    simp only [List.mem_map, List.mem_range] at hc
    obtain ⟨j, _, rfl⟩ := hc
    simpa using hle
  · intro c hc
    simp only [List.mem_map, List.mem_range] at hc
    obtain ⟨j, _, rfl⟩ := hc
    simpa using h1
  · rw [List.map_map]
    have hconst : ((List.range (chunks_needed total limit)).map
        ((fun c : ℚ × ℚ => c.2 - c.1) ∘
          (fun j : ℕ =>
            ((j : ℚ) * (optimal_chunk_duration total limit - chunk_overlap_val total limit),
              (j : ℚ) * (optimal_chunk_duration total limit - chunk_overlap_val total limit)
                + optimal_chunk_duration total limit)))) =
        (List.range (chunks_needed total limit)).map
          (fun _ => optimal_chunk_duration total limit) := by
      apply List.map_congr_left
      intro j _
      simp only [Function.comp_apply]
      ring
    rw [hconst, List.map_const', List.sum_replicate, List.length_range, nsmul_eq_mul]
    exact hnd

/-- Witness for the chunk-planner theorem at total 100 s, ceiling 30 s:
the planner yields ceil(100/30) = 4 equal segments. -/
theorem chunk_planner_equal_segments_witness :
    (2:ℚ) ≤ 30 ∧ (30:ℚ) < 100 ∧
      (create_intelligent_chunks_ffmpeg 100 30).length = chunks_needed 100 30 := by
  refine ⟨by norm_num, by norm_num, ?_⟩
  exact (chunk_planner_equal_segments 100 30 (by norm_num) (by norm_num)).1

lemma effective_duration_limit_eq : effective_duration_limit = 1536 / 5 := by
  unfold effective_duration_limit api_duration_limit conservative_limit
    max_duration_per_chunk_tokens max_words_per_chunk max_output_tokens
    words_per_token words_per_second
  rw [min_eq_right]
  · norm_num
  · norm_num

lemma chunks_needed_2400 : chunks_needed 2400 effective_duration_limit = 8 := by
  rw [effective_duration_limit_eq]
  unfold chunks_needed
  rw [show ⌈(2400:ℚ) / (1536 / 5)⌉ = (8:ℤ) from by
    rw [Int.ceil_eq_iff]
    norm_num]
  rfl

lemma optimal_chunk_duration_2400 :
    optimal_chunk_duration 2400 effective_duration_limit = 300 := by
  unfold optimal_chunk_duration
  rw [chunks_needed_2400]
  norm_num

lemma chunk_overlap_val_2400 : chunk_overlap_val 2400 effective_duration_limit = 0 := by
  unfold chunk_overlap_val
  rw [optimal_chunk_duration_2400]
  norm_num

lemma transcribe_chunked_plan_2400 :
    transcribe_chunked_plan 2400 =
      (List.range 8).map (fun j : ℕ => ((j : ℚ) * 300, (j : ℚ) * 300 + 300)) := by
  unfold transcribe_chunked_plan
  rw [create_chunks_closed 2400 effective_duration_limit
    (by rw [effective_duration_limit_eq]; norm_num)
    (by rw [effective_duration_limit_eq]; norm_num)]
  rw [chunks_needed_2400, optimal_chunk_duration_2400, chunk_overlap_val_2400]
  norm_num

/-- C1 counterexample: for the 40-minute (2400 s), 15 MB input the strategy is
chunked, but the chunk plan actually computed by `_transcribe_chunked` does
NOT have 4 segments: the planner is fed the 307.2 s token-budget ceiling, not
the 12-minute safe ceiling, and produces 8 segments. -/
theorem scenario_40min_claim_false :
    ¬ (strategy_of 15 2400 25 = Strategy.chunked ∧
        (transcribe_chunked_plan 2400).length = 4) := by
  intro h
  have hlen : (transcribe_chunked_plan 2400).length = 8 := by
    rw [transcribe_chunked_plan_2400]; simp
  rw [hlen] at h
  exact absurd h.2 (by norm_num)

/-- C1 amended: for the 40-minute, 15 MB input the pipeline selects the
chunked strategy, and the Chunk Planner - invoked with the 307.2 s effective
per-chunk ceiling computed from the output-token budget, not with the
12-minute safe ceiling - produces exactly 8 equal 300-second (5-minute)
segments, contiguous with zero overlap. -/
theorem scenario_40min_amended :
    strategy_of 15 2400 25 = Strategy.chunked ∧
    (transcribe_chunked_plan 2400).length = 8 ∧
    (∀ c ∈ transcribe_chunked_plan 2400, c.2 - c.1 = 300) ∧
    List.Chain' (fun a b => a.2 = b.1) (transcribe_chunked_plan 2400) := by
  refine ⟨?_, ?_, ?_, ?_⟩
  · unfold strategy_of
    rw [if_neg]
    unfold safe_duration_limit
    norm_num
  · rw [transcribe_chunked_plan_2400]; simp
  · intro c hc
    rw [transcribe_chunked_plan_2400] at hc
    simp only [List.mem_map, List.mem_range] at hc
    obtain ⟨j, _, rfl⟩ := hc
    ring
  · rw [transcribe_chunked_plan_2400]
    rw [List.chain'_map]
    rw [show (8:ℕ) = 7 + 1 from rfl, List.chain'_range_succ]
    intro m _
    push_cast
    ring

/-- C7: for all inputs whose size is at most the upload limit and whose
duration is at most the safe duration ceiling, the strategy is `direct` and
the rationale-trigger list is empty. -/
theorem direct_strategy_empty_triggers (final_file_size_mb duration_seconds
    max_file_size_mb : ℚ) (hsize : final_file_size_mb ≤ max_file_size_mb)
    (hdur : duration_seconds ≤ safe_duration_limit) :
    strategy_of final_file_size_mb duration_seconds max_file_size_mb = Strategy.direct ∧
    strategy_triggers final_file_size_mb duration_seconds max_file_size_mb = [] := by
  have hs : strategy_of final_file_size_mb duration_seconds max_file_size_mb =
      Strategy.direct := by
    unfold strategy_of
    rw [if_pos ⟨hsize, hdur⟩]
  refine ⟨hs, ?_⟩
  unfold strategy_triggers
  rw [hs]

/-- Witness: a 10 MB, 300 s input is sent direct with no triggers. -/
theorem direct_strategy_empty_triggers_witness :
    (10:ℚ) ≤ 25 ∧ (300:ℚ) ≤ safe_duration_limit ∧
      strategy_of 10 300 25 = Strategy.direct ∧ strategy_triggers 10 300 25 = [] := by
  have h := direct_strategy_empty_triggers 10 300 25 (by norm_num)
    (by unfold safe_duration_limit; norm_num)
  exact ⟨by norm_num, by unfold safe_duration_limit; norm_num, h.1, h.2⟩

/-- C8: the planner adds a nonzero overlap between consecutive chunks only
when the equal chunk length is within 50 seconds of the per-chunk duration
ceiling; otherwise the overlap between consecutive chunks is exactly zero.
The threshold in the code is the constant `1350 = api_duration_limit - 50`,
so the statement holds for every ceiling at most `api_duration_limit`
(`effective_duration_limit` always is, being a `min` with it).  The
`Chain'` conjunct identifies `chunk_overlap_val` with the geometric
overlap `end(k) - start(k+1)` of consecutive planned chunks. -/
theorem chunk_overlap_only_near_ceiling (total limit : ℚ)
    (hcap : limit ≤ api_duration_limit) (h2 : 2 ≤ limit) (hlt : limit < total) :
    (chunk_overlap_val total limit ≠ 0 →
      limit - 50 ≤ optimal_chunk_duration total limit) ∧
    (optimal_chunk_duration total limit < limit - 50 →
      chunk_overlap_val total limit = 0) ∧
    List.Chain' (fun a b => a.2 - b.1 = chunk_overlap_val total limit)
      (create_intelligent_chunks_ffmpeg total limit) := by
  have hcap' : limit ≤ 1400 := by
    rw [api_duration_limit] at hcap; exact hcap
  refine ⟨?_, ?_, ?_⟩
  · intro hne
    unfold chunk_overlap_val at hne
    by_cases h : 1350 < optimal_chunk_duration total limit
    · linarith
    · rw [if_neg h] at hne
      exact absurd rfl hne
  · intro hlt50
    unfold chunk_overlap_val
    rw [if_neg (by linarith)]
  · rw [create_chunks_closed total limit h2 hlt, List.chain'_map]
    rcases Nat.eq_zero_or_pos (chunks_needed total limit) with h0 | hpos
    · rw [h0]; simp
    · obtain ⟨m, hm⟩ := Nat.exists_eq_add_of_lt hpos
      rw [show chunks_needed total limit = m + 1 from by omega, List.chain'_range_succ]
      intro k _
      push_cast
      ring

/-- Witness for the overlap theorem: ceiling 1400 s, total 2750 s gives two
chunks of 1375 s each; 1375 is within 50 s of the ceiling and indeed a
0.5 s overlap is added. -/
theorem chunk_overlap_only_near_ceiling_witness :
    chunk_overlap_val 2750 1400 = 1 / 2 ∧
      (1400:ℚ) - 50 ≤ optimal_chunk_duration 2750 1400 := by
  have hn : chunks_needed 2750 1400 = 2 := by
    unfold chunks_needed
    rw [show ⌈(2750:ℚ) / 1400⌉ = (2:ℤ) from by
      rw [Int.ceil_eq_iff]
      norm_num]
    rfl
  have hd : optimal_chunk_duration 2750 1400 = 1375 := by
    unfold optimal_chunk_duration
    rw [hn]
    norm_num
  have hov : chunk_overlap_val 2750 1400 = 1 / 2 := by
    unfold chunk_overlap_val
    rw [hd]
    norm_num
  refine ⟨hov, ?_⟩
  exact (chunk_overlap_only_near_ceiling 2750 1400
    (by unfold api_duration_limit; norm_num) (by norm_num) (by norm_num)).1
    (by rw [hov]; norm_num)

/-! ### Transcription executor retry loop: `_make_api_call_with_retry`
(lines 1195-1242)

An API call either returns a response or raises; we model the per-attempt
behaviour as an explicit outcome sequence `outcomes : ℕ → Except String α`
(`.error e` means attempt `i` raised an exception whose `str` is `e`).
The loop runs `max_retries + 1` attempts; a failed attempt is retried only
when `attempt < max_retries` and the lowercased error text contains one of
the keywords `['timeout', 'rate limit', '5', 'server error', 'connection']`
(line 1224); otherwise it raises `TranscriptionError("API call failed: ...")`.
The returned list collects the backoff delays slept, in order. -/

def retry_keywords : List String := ["timeout", "rate limit", "5", "server error", "connection"]

/-- `any(keyword in error_msg for keyword in [...])` with
`error_msg = str(e).lower()` (lines 1221-1226).  Lowercasing is modelled
per character (the keyword texts are ASCII). -/
def is_retryable (e : String) : Bool :=
  retry_keywords.any (fun k => decide (k.toList <:+: e.toList.map Char.toLower))

/-- The `for attempt in range(max_retries + 1)` loop.  The fuel is the number
of remaining iterations; `(none, _)` models the dead `return None` after the
loop (unreachable from the top-level call). -/
def retry_go (maxRetries : ℕ) (baseDelay : ℚ) (outcomes : ℕ → Except String String) :
    ℕ → ℕ → Option (Except String String) × List ℚ
  | 0, _ => (none, [])
  | fuel + 1, attempt =>
    match outcomes attempt with
    | Except.ok r => (some (Except.ok r), [])
    | Except.error e =>
      if attempt < maxRetries ∧ is_retryable e = true then
        -- delay = self.base_delay * (2 ** attempt); time.sleep(delay)
        let rest := retry_go maxRetries baseDelay outcomes fuel (attempt + 1)
        (rest.1, baseDelay * 2 ^ attempt :: rest.2)
      else (some (Except.error ("API call failed: " ++ e)), [])

/-- `_make_api_call_with_retry`: result together with the slept delays. -/
def make_api_call_with_retry (maxRetries : ℕ) (baseDelay : ℚ)
    (outcomes : ℕ → Except String String) : Option (Except String String) × List ℚ :=
  retry_go maxRetries baseDelay outcomes (maxRetries + 1) 0

lemma retry_go_ok (maxRetries : ℕ) (baseDelay : ℚ)
    (outcomes : ℕ → Except String String) (fuel attempt : ℕ) (r : String)
    (h : outcomes attempt = Except.ok r) :
    retry_go maxRetries baseDelay outcomes (fuel + 1) attempt = (some (Except.ok r), []) := by
  simp only [retry_go, h]

lemma retry_go_err_retry (maxRetries : ℕ) (baseDelay : ℚ)
    (outcomes : ℕ → Except String String) (fuel attempt : ℕ) (e : String)
    (h : outcomes attempt = Except.error e)
    (hc : attempt < maxRetries ∧ is_retryable e = true) :
    retry_go maxRetries baseDelay outcomes (fuel + 1) attempt =
      ((retry_go maxRetries baseDelay outcomes fuel (attempt + 1)).1,
        baseDelay * 2 ^ attempt :: (retry_go maxRetries baseDelay outcomes fuel (attempt + 1)).2) := by
  simp only [retry_go, h]
  rw [if_pos hc]

lemma retry_go_err_stop (maxRetries : ℕ) (baseDelay : ℚ)
    (outcomes : ℕ → Except String String) (fuel attempt : ℕ) (e : String)
    (h : outcomes attempt = Except.error e)
    (hc : ¬ (attempt < maxRetries ∧ is_retryable e = true)) :
    retry_go maxRetries baseDelay outcomes (fuel + 1) attempt =
      (some (Except.error ("API call failed: " ++ e)), []) := by
  simp only [retry_go, h]
  rw [if_neg hc]

lemma retry_go_spec (maxRetries : ℕ) (baseDelay : ℚ)
    (outcomes : ℕ → Except String String) :
    ∀ fuel attempt, attempt + fuel = maxRetries + 1 → attempt ≤ maxRetries →
      (retry_go maxRetries baseDelay outcomes fuel attempt).2 =
          (List.range (retry_go maxRetries baseDelay outcomes fuel attempt).2.length).map
            (fun i => baseDelay * 2 ^ (attempt + i)) ∧
        (retry_go maxRetries baseDelay outcomes fuel attempt).2.length + attempt ≤ maxRetries ∧
        (∀ i < (retry_go maxRetries baseDelay outcomes fuel attempt).2.length,
          ∃ e, outcomes (attempt + i) = Except.error e ∧ is_retryable e = true) ∧
        (∀ r, outcomes (attempt + (retry_go maxRetries baseDelay outcomes fuel attempt).2.length)
            = Except.ok r →
          (retry_go maxRetries baseDelay outcomes fuel attempt).1 = some (Except.ok r)) ∧
        (∀ e, outcomes (attempt + (retry_go maxRetries baseDelay outcomes fuel attempt).2.length)
            = Except.error e →
          (retry_go maxRetries baseDelay outcomes fuel attempt).1 =
            some (Except.error ("API call failed: " ++ e))) := by
  intro fuel
  induction fuel with
  | zero => intro attempt h h2; omega
  | succ fuel ih =>
    intro attempt h h2
    cases houtcome : outcomes attempt with
    | ok r =>
      rw [retry_go_ok maxRetries baseDelay outcomes fuel attempt r houtcome]
      refine ⟨by simp, by simp; omega, by simp, ?_, ?_⟩
      · intro r' h'
        simp only [List.length_nil, Nat.add_zero] at h'
        rw [houtcome] at h'
        injection h' with hh
        rw [hh]
      · intro e h'
        simp only [List.length_nil, Nat.add_zero] at h'
        rw [houtcome] at h'
        exact absurd h' (by simp)
    | error e =>
      by_cases hretry : attempt < maxRetries ∧ is_retryable e = true
      · rw [retry_go_err_retry maxRetries baseDelay outcomes fuel attempt e houtcome hretry]
        obtain ⟨ihdelays, ihlen, ihretried, ihok, iherr⟩ := ih (attempt + 1) (by omega) hretry.1
        simp only [List.length_cons]
        refine ⟨?_, by omega, ?_, ?_, ?_⟩
        · rw [List.range_succ_eq_map, List.map_cons]
          refine congrArg₂ List.cons (by simp) ?_
          conv_lhs => rw [ihdelays]
          rw [List.map_map]
          apply List.map_congr_left
          intro j _
          simp only [Function.comp_apply, Nat.succ_eq_add_one]
          rw [show attempt + (j + 1) = attempt + 1 + j from by omega]
        · intro i hi
          cases i with
          | zero => exact ⟨e, by simpa using houtcome, hretry.2⟩
          | succ i =>
            obtain ⟨e', he'⟩ := ihretried i (by omega)
            exact ⟨e', by rw [show attempt + (i + 1) = attempt + 1 + i from by omega]; exact he'⟩
        · intro r hr
          rw [show attempt + ((retry_go maxRetries baseDelay outcomes fuel (attempt + 1)).2.length + 1)
            = attempt + 1 + (retry_go maxRetries baseDelay outcomes fuel (attempt + 1)).2.length
            from by omega] at hr
          exact ihok r hr
        · intro e' he'
          rw [show attempt + ((retry_go maxRetries baseDelay outcomes fuel (attempt + 1)).2.length + 1)
            = attempt + 1 + (retry_go maxRetries baseDelay outcomes fuel (attempt + 1)).2.length
            from by omega] at he'
          exact iherr e' he'
      · rw [retry_go_err_stop maxRetries baseDelay outcomes fuel attempt e houtcome hretry]
        refine ⟨by simp, ?_, by simp, ?_, ?_⟩
        · simp only [List.length_nil]
          omega
        · intro r hr
          simp only [List.length_nil, Nat.add_zero] at hr
          rw [houtcome] at hr
          exact absurd hr (by simp)
        · intro e' he'
          simp only [List.length_nil, Nat.add_zero] at he'
          rw [houtcome] at he'
          injection he' with hh
          rw [hh]

/-- C3: each transcription API call runs in a bounded retry loop: at most
`max_retries` backoff sleeps (so at most `max_retries + 1` attempts), the
i-th slept delay is exactly `base_delay * 2 ^ i`, every retried attempt
failed with an error classified transient by the keyword-substring check
`is_retryable`, and at the first attempt not retried the loop either
returns the response or raises immediately - in particular a failure whose
text matches no transient keyword is never retried. -/
theorem api_retry_backoff_and_classification (maxRetries : ℕ) (baseDelay : ℚ)
    (outcomes : ℕ → Except String String) :
    (make_api_call_with_retry maxRetries baseDelay outcomes).2.length ≤ maxRetries ∧
    (make_api_call_with_retry maxRetries baseDelay outcomes).2 =
      (List.range (make_api_call_with_retry maxRetries baseDelay outcomes).2.length).map
        (fun i => baseDelay * 2 ^ i) ∧
    (∀ i < (make_api_call_with_retry maxRetries baseDelay outcomes).2.length,
      ∃ e, outcomes i = Except.error e ∧ is_retryable e = true) ∧
    (∀ r, outcomes (make_api_call_with_retry maxRetries baseDelay outcomes).2.length =
        Except.ok r →
      (make_api_call_with_retry maxRetries baseDelay outcomes).1 = some (Except.ok r)) ∧
    (∀ e, outcomes (make_api_call_with_retry maxRetries baseDelay outcomes).2.length =
        Except.error e →
      (make_api_call_with_retry maxRetries baseDelay outcomes).1 =
        some (Except.error ("API call failed: " ++ e))) := by
  unfold make_api_call_with_retry
  obtain ⟨hdelays, hlen, hretried, hok, herr⟩ :=
    retry_go_spec maxRetries baseDelay outcomes (maxRetries + 1) 0 (by omega) (by omega)
  simp only [Nat.zero_add] at hdelays hlen hretried hok herr
  exact ⟨by omega, hdelays, hretried, hok, herr⟩

/-- Outcome sequence for the retry witness: two transient failures, then
success. -/
def retry_witness_outcomes : ℕ → Except String String :=
  fun n =>
    match n with
    | 0 => Except.error "Rate limit exceeded"
    | 1 => Except.error "Connection reset by peer"
    | _ => Except.ok "hello"

/-- Witness: with `max_retries = 3`, `base_delay = 1` and the outcomes above,
two backoff delays are slept and attempt 0 failed with a transient error. -/
theorem api_retry_backoff_witness :
    (make_api_call_with_retry 3 1 retry_witness_outcomes).2.length ≤ 3 ∧
    (∃ e, retry_witness_outcomes 0 = Except.error e ∧ is_retryable e = true) := by
  have h := api_retry_backoff_and_classification 3 1 retry_witness_outcomes
  refine ⟨h.1, ?_⟩
  apply h.2.2.1 0
  decide

/-! ### Result data model (`TranscriptionSegment`, `TranscriptionResult`,
lines 51-79)

The fields `language`, `model_used` and `processing_time` carry no logical
content for the claims below and are omitted; the remaining defaults mirror
the dataclass defaults. -/

structure TranscriptionSegment where
  start_time : ℚ
  end_time : ℚ
  text : String
deriving DecidableEq

structure TranscriptionResult where
  success : Bool
  audio_id : String
  full_transcript : String
  segments : List TranscriptionSegment
  total_chunks : ℕ := 1
  failed_chunks : ℕ := 0
  file_size_mb : ℚ := 0
  optimization_applied : Option String := none
  error_message : Option String := none
deriving DecidableEq

/-! ### Direct transcription: `_transcribe_direct` (lines 964-1030) -/

/-- `_transcribe_direct` as a function of the API-call outcome.
`Except.error e` : `_make_api_call_with_retry` raised and the `except`
clause returns a failure result.  `Except.ok none` : the falsy-response
path returning "No response from API".  `Except.ok (some t)` : a response
whose `text or ""` equals `t`; when `t` is empty the Python function falls
through both conditionals and returns `None`, modelled as `none`. -/
def transcribe_direct_model (audio_id : String) (api : Except String (Option String)) :
    Option TranscriptionResult :=
  match api with
  | Except.error e =>
    some { success := false, audio_id := audio_id, full_transcript := "", segments := [],
           error_message := some ("Direct transcription failed: " ++ e) }
  | Except.ok none =>
    some { success := false, audio_id := audio_id, full_transcript := "", segments := [],
           error_message := some "No response from API" }
  | Except.ok (some t) =>
    if t = "" then none
    else
      some { success := true, audio_id := audio_id, full_transcript := t,
             segments := [{ start_time := 0, end_time := 0, text := t }],
             error_message := none }

/-! ### Transcript assembler: `_assemble_transcript_from_segments`
(lines 1166-1193) -/

/-- Python `str.strip()`: drop leading and trailing whitespace (written on
the character list so that it is kernel-computable). -/
def strip_text (t : String) : String :=
  String.mk (((t.toList.dropWhile Char.isWhitespace).reverse.dropWhile
    Char.isWhitespace).reverse)

/-- Sorts segments by start time (Python `sorted` is a stable sort, modelled
with the stable `List.mergeSort`), strips each text, drops the empty ones and
joins with single spaces. -/
def assemble_transcript_from_segments (segments : List TranscriptionSegment) : String :=
  if segments.isEmpty then ""
  else
    String.intercalate " "
      (((segments.mergeSort (fun a b => decide (a.start_time ≤ b.start_time))).map
        (fun s => strip_text s.text)).filter (fun t => decide (t ≠ "")))

/-! ### Chunked transcription: `_transcribe_chunked` (lines 1032-1162) -/

/-- The per-chunk loop (lines 1085-1128).  `outcomes i` is the API outcome
for chunk `i` (the audio id passed to `_transcribe_direct` for a chunk is
`None`, modelled as `""`).  A chunk contributes a segment iff its direct
result is a success with a nonempty segment list (line 1102); a `None`
direct result raises `AttributeError`, caught by the per-chunk `except`,
so it also counts as a failed chunk.  The Python loop appends in order;
the recursion below conses in the same order. -/
def process_chunks (outcomes : ℕ → Except String (Option String)) :
    ℕ → List (ℚ × ℚ) → List TranscriptionSegment × ℕ
  | _, [] => ([], 0)
  | i, c :: rest =>
    let next := process_chunks outcomes (i + 1) rest
    match transcribe_direct_model "" (outcomes i) with
    | some r =>
      match r.success, r.segments with
      | true, s :: _ =>
        ({ s with start_time := c.1, end_time := c.2 } :: next.1, next.2)
      | _, _ => (next.1, next.2 + 1)
    | none => (next.1, next.2 + 1)

/-- The result assembled at lines 1144-1153: `success = len(segments) > 0`,
`total_chunks = len(chunks)`, `failed_chunks` from the loop, and crucially
no `error_message` even when every chunk failed. -/
def chunked_run_result (audio_id : String) (chunks : List (ℚ × ℚ))
    (outcomes : ℕ → Except String (Option String)) : TranscriptionResult :=
  { success := decide (0 < (process_chunks outcomes 0 chunks).1.length)
    audio_id := audio_id
    full_transcript := assemble_transcript_from_segments (process_chunks outcomes 0 chunks).1
    segments := (process_chunks outcomes 0 chunks).1
    total_chunks := chunks.length
    failed_chunks := (process_chunks outcomes 0 chunks).2
    error_message := none }

/-- `_transcribe_chunked`: the body probes the duration and plans chunks with
`effective_duration_limit`; an exception anywhere in the body (modelled:
a probe failure) is caught by the outer `except` (lines 1155-1162). -/
def transcribe_chunked_model (audio_id : String) (probe : Except String ℚ)
    (outcomes : ℕ → Except String (Option String)) : TranscriptionResult :=
  match probe with
  | Except.error e =>
    { success := false, audio_id := audio_id, full_transcript := "", segments := [],
      error_message := some ("Chunked transcription failed: " ++ e) }
  | Except.ok total =>
    chunked_run_result audio_id
      (create_intelligent_chunks_ffmpeg total effective_duration_limit) outcomes

/-- The text a chunk contributes: `some t` iff the chunk's API outcome is a
response with nonempty transcript `t`. -/
def success_text (o : Except String (Option String)) : Option String :=
  match o with
  | Except.ok (some t) => if t = "" then none else some t
  | _ => none

lemma process_chunks_spec (outcomes : ℕ → Except String (Option String)) :
    ∀ (chunks : List (ℚ × ℚ)) (i : ℕ),
      (process_chunks outcomes i chunks).1 =
        (List.enumFrom i chunks).filterMap
          (fun p => (success_text (outcomes p.1)).map
            (fun t => { start_time := p.2.1, end_time := p.2.2, text := t })) ∧
      (process_chunks outcomes i chunks).2 =
        (List.enumFrom i chunks).countP
          (fun p => decide (success_text (outcomes p.1) = none)) := by
  intro chunks
  induction chunks with
  | nil => intro i; simp [process_chunks]
  | cons c rest ih =>
    intro i
    obtain ⟨ih1, ih2⟩ := ih (i + 1)
    cases ho : outcomes i with
    | error e =>
      constructor
      · simp [process_chunks, transcribe_direct_model, ho, success_text, ih1,
          List.enumFrom, List.filterMap_cons]
      · simp [process_chunks, transcribe_direct_model, ho, success_text, ih2,
          List.enumFrom, List.countP_cons]
    | ok t? =>
      cases t? with
      | none =>
        constructor
        · simp [process_chunks, transcribe_direct_model, ho, success_text, ih1,
            List.enumFrom, List.filterMap_cons]
        · simp [process_chunks, transcribe_direct_model, ho, success_text, ih2,
            List.enumFrom, List.countP_cons]
      | some t =>
        by_cases ht : t = ""
        · constructor
          · simp [process_chunks, transcribe_direct_model, ho, success_text, ht, ih1,
              List.enumFrom, List.filterMap_cons]
          · simp [process_chunks, transcribe_direct_model, ho, success_text, ht, ih2,
              List.enumFrom, List.countP_cons]
        · constructor
          · simp [process_chunks, transcribe_direct_model, ho, success_text, ht, ih1,
              List.enumFrom, List.filterMap_cons]
          · simp [process_chunks, transcribe_direct_model, ho, success_text, ht, ih2,
              List.enumFrom, List.countP_cons]

lemma process_chunks_start_mem (outcomes : ℕ → Except String (Option String)) :
    ∀ (chunks : List (ℚ × ℚ)) (i : ℕ),
      ∀ s ∈ (process_chunks outcomes i chunks).1, s.start_time ∈ chunks.map Prod.fst := by
  intro chunks
  induction chunks with
  | nil => intro i s hs; simp [process_chunks] at hs
  | cons c rest ih =>
    intro i s hs
    rcases (process_chunks_spec outcomes (c :: rest) i).1 ▸ hs with hmem
    rw [show List.enumFrom i (c :: rest) = (i, c) :: List.enumFrom (i + 1) rest from rfl,
      List.filterMap_cons] at hmem
    cases hst : success_text (outcomes i) with
    | none =>
      simp only [hst, Option.map_none'] at hmem
      have := ((process_chunks_spec outcomes rest (i + 1)).1).symm ▸ hmem
      simp only [List.map_cons, List.mem_cons]
      exact Or.inr (ih (i + 1) s this)
    | some t =>
      simp only [hst, Option.map_some'] at hmem
      rcases List.mem_cons.mp hmem with hh | hh
      · subst hh; simp
      · have := ((process_chunks_spec outcomes rest (i + 1)).1).symm ▸ hh
        simp only [List.map_cons, List.mem_cons]
        exact Or.inr (ih (i + 1) s this)

lemma process_chunks_sorted (outcomes : ℕ → Except String (Option String)) :
    ∀ (chunks : List (ℚ × ℚ)) (i : ℕ),
      chunks.Pairwise (fun a b => a.1 < b.1) →
      (process_chunks outcomes i chunks).1.Pairwise
        (fun s u => s.start_time < u.start_time) := by
  intro chunks
  induction chunks with
  | nil => intro i _; simp [process_chunks]
  | cons c rest ih =>
    intro i hp
    obtain ⟨hhead, htail⟩ := List.pairwise_cons.mp hp
    have ihtail := ih (i + 1) htail
    rw [(process_chunks_spec outcomes (c :: rest) i).1,
      show List.enumFrom i (c :: rest) = (i, c) :: List.enumFrom (i + 1) rest from rfl,
      List.filterMap_cons]
    cases hst : success_text (outcomes i) with
    | none =>
      simp only [Option.map_none']
      rw [← (process_chunks_spec outcomes rest (i + 1)).1]
      exact ihtail
    | some t =>
      simp only [Option.map_some']
      rw [← (process_chunks_spec outcomes rest (i + 1)).1]
      refine List.pairwise_cons.mpr ⟨?_, ihtail⟩
      intro u hu
      have hmem := process_chunks_start_mem outcomes rest (i + 1) u hu
      simp only [List.mem_map] at hmem
      obtain ⟨b, hb, hbeq⟩ := hmem
      have := hhead b hb
      rw [hbeq] at this
      exact this

/-- C4: in a chunked run the failure of a unit does not abort the rest:
the result is a success exactly when at least one chunk produced a
(nonempty) transcript, the number of failed chunks is recorded in
`failed_chunks`, `total_chunks` counts all planned chunks, and the
assembled transcript is exactly the successful chunks' trimmed texts, in
sequence order, joined by single spaces - failed chunks are omitted with
no placeholder. -/
theorem chunked_partial_failure (audio_id : String) (chunks : List (ℚ × ℚ))
    (outcomes : ℕ → Except String (Option String))
    (hsorted : chunks.Pairwise (fun a b => a.1 < b.1)) :
    ((chunked_run_result audio_id chunks outcomes).success = true ↔
      ∃ p ∈ List.enumFrom 0 chunks, success_text (outcomes p.1) ≠ none) ∧
    (chunked_run_result audio_id chunks outcomes).failed_chunks =
      (List.enumFrom 0 chunks).countP
        (fun p => decide (success_text (outcomes p.1) = none)) ∧
    (chunked_run_result audio_id chunks outcomes).total_chunks = chunks.length ∧
    (chunked_run_result audio_id chunks outcomes).full_transcript =
      String.intercalate " "
        ((((List.enumFrom 0 chunks).filterMap (fun p => success_text (outcomes p.1))).map
          strip_text).filter (fun t => decide (t ≠ ""))) := by
  obtain ⟨hsegs, hfail⟩ := process_chunks_spec outcomes chunks 0
  have hsort := process_chunks_sorted outcomes chunks 0 hsorted
  refine ⟨?_, hfail, rfl, ?_⟩
  · show decide (0 < (process_chunks outcomes 0 chunks).1.length) = true ↔ _
    rw [decide_eq_true_iff, List.length_pos, Ne, hsegs, List.filterMap_eq_nil_iff]
    constructor
    · intro hne
      by_contra hno
      push_neg at hno
      exact hne (fun p hp => by rw [Option.map_eq_none']; exact hno p hp)
    · rintro ⟨p, hp, hne⟩ hall
      exact hne (Option.map_eq_none'.mp (hall p hp))
  · show assemble_transcript_from_segments (process_chunks outcomes 0 chunks).1 = _
    unfold assemble_transcript_from_segments
    by_cases hempty : (process_chunks outcomes 0 chunks).1.isEmpty
    · rw [if_pos hempty]
      have hnil : (process_chunks outcomes 0 chunks).1 = [] := by
        simpa [List.isEmpty_iff] using hempty
      rw [hnil] at hsegs
      have hnil2 : (List.enumFrom 0 chunks).filterMap
          (fun p => success_text (outcomes p.1)) = [] := by
        rw [List.filterMap_eq_nil_iff]
        intro p hp
        have := (List.filterMap_eq_nil_iff.mp hsegs.symm) p hp
        exact Option.map_eq_none'.mp this
      rw [hnil2]
      rfl
    · rw [if_neg hempty]
      have hble : (process_chunks outcomes 0 chunks).1.Pairwise
          (fun a b => decide (a.start_time ≤ b.start_time) = true) := by
        refine hsort.imp ?_
        intro a b hab
        simpa using le_of_lt hab
      rw [List.mergeSort_of_sorted hble]
      rw [hsegs, List.map_filterMap, List.map_filterMap]
      refine congrArg (String.intercalate " ") (congrArg (List.filter _) ?_)
      congr 1
      funext p
      cases success_text (outcomes p.1) <;> simp

/-- Chunk boundaries for the partial-failure witness. -/
def c4_chunks : List (ℚ × ℚ) := [(0, 10), (10, 20), (20, 30)]

/-- Outcomes for the partial-failure witness: chunk 2 fails permanently. -/
def c4_outcomes : ℕ → Except String (Option String) :=
  fun n =>
    match n with
    | 0 => Except.ok (some "hello")
    | 1 => Except.error "invalid request"
    | _ => Except.ok (some "world")

/-- Witness: a 3-chunk run whose middle chunk fails yields a successful
result with one failed chunk and the transcript of chunks 1 and 3, in
order. -/
theorem chunked_partial_failure_witness :
    (chunked_run_result "id" c4_chunks c4_outcomes).success = true ∧
    (chunked_run_result "id" c4_chunks c4_outcomes).failed_chunks = 1 ∧
    (chunked_run_result "id" c4_chunks c4_outcomes).full_transcript = "hello world" := by
  have h := chunked_partial_failure "id" c4_chunks c4_outcomes (by decide)
  refine ⟨?_, ?_, ?_⟩
  · exact h.1.mpr ⟨(0, (0, 10)), by decide, by decide⟩
  · rw [h.2.1]; decide
  · rw [h.2.2.2]; decide

/-! ### Pipeline orchestrator: `transcribe_audio` (lines 153-278)

The orchestrator is modelled as a function of the external behaviour of one
call, collected in `PipelineEnv`:
`fileExists` - whether the resolved path exists (line 176);
`optimizeResult` - the outcome of `_optimize_audio_file` plus the
post-optimization `stat` (lines 193-197), yielding the final size in MB and
the optimization label, or the text of a raised exception;
`durationProbe` - the outcome of `_get_audio_duration_efficient`
(line 202), whose failure is caught locally at lines 211-216, setting
`duration_seconds = 0`;
`directResult` - what `_transcribe_direct` returns on this input (`none`
models its Python `None` return on an empty transcript);
`chunkedResult` - what `_transcribe_chunked` returns.
`_transcribe_direct` and `_transcribe_chunked` never raise (both wrap their
bodies in `try/except`), so only the other stages feed the top-level
handler.  The `processing_time` update at line 260 raises `AttributeError`
when the branch produced `None`; its message is abstracted as
`attr_error_none_result`. -/

structure PipelineEnv where
  fileExists : Bool
  audio_id : String
  max_file_size_mb : ℚ
  optimizeResult : Except String (ℚ × Option String)
  durationProbe : Except String ℚ
  directResult : Option TranscriptionResult
  chunkedResult : TranscriptionResult

/-- The `try/except` of lines 201-216: a probe failure yields `duration_seconds = 0`. -/
def duration_or_zero (p : Except String ℚ) : ℚ :=
  match p with
  | Except.ok d => d
  | Except.error _ => 0

/-- The `str` of the `AttributeError` raised at line 260 when the strategy
branch returned `None`. -/
def attr_error_none_result : String :=
  "AttributeError: NoneType object has no attribute processing_time"

/-- The `try` suite of `transcribe_audio` (lines 172-268): either the result
value it returns, or the exception reaching the top-level handler. -/
def transcribe_audio_body (env : PipelineEnv) : Except String TranscriptionResult :=
  if env.fileExists = false then
    Except.ok { success := false, audio_id := env.audio_id, full_transcript := "",
                segments := [], error_message := some "Audio file not found" }
  else
    match env.optimizeResult with
    | Except.error e => Except.error e
    | Except.ok (final_size, optimization) =>
      match (match strategy_of final_size (duration_or_zero env.durationProbe)
                env.max_file_size_mb with
             | Strategy.direct => env.directResult
             | Strategy.chunked => some env.chunkedResult) with
      | none => Except.error attr_error_none_result
      | some r =>
        Except.ok { r with file_size_mb := final_size, optimization_applied := optimization }

/-- `transcribe_audio`: the `except` clause (lines 270-278) converts any
exception from the body into a failure result. -/
def transcribe_audio_model (env : PipelineEnv) : TranscriptionResult :=
  match transcribe_audio_body env with
  | Except.ok r => r
  | Except.error e =>
    { success := false, audio_id := env.audio_id, full_transcript := "", segments := [],
      error_message := some ("Transcription failed: " ++ e) }

/-- C5: whatever exception any pipeline stage raises, `transcribe_audio`
returns a `TranscriptionResult` value (the model is a total function into
results) with `success = False` and the exception text captured in the
error message; no exception propagates. -/
theorem orchestrator_captures_exceptions (env : PipelineEnv) (e : String)
    (h : transcribe_audio_body env = Except.error e) :
    (transcribe_audio_model env).success = false ∧
    (transcribe_audio_model env).error_message =
      some ("Transcription failed: " ++ e) := by
  unfold transcribe_audio_model
  rw [h]
  exact ⟨rfl, rfl⟩

/-- Environment for the exception-capture witness: the optimization stage
raises. -/
def c5_env : PipelineEnv :=
  { fileExists := true, audio_id := "id", max_file_size_mb := 25,
    optimizeResult := Except.error "disk failure",
    durationProbe := Except.ok 100,
    directResult := none,
    chunkedResult := { success := true, audio_id := "id", full_transcript := "",
                       segments := [] } }

/-- Witness: an exception in the optimization stage is captured as a failed
result. -/
theorem orchestrator_captures_exceptions_witness :
    transcribe_audio_body c5_env = Except.error "disk failure" ∧
    (transcribe_audio_model c5_env).success = false ∧
    (transcribe_audio_model c5_env).error_message =
      some ("Transcription failed: " ++ "disk failure") :=
  ⟨rfl, orchestrator_captures_exceptions c5_env "disk failure" rfl⟩

/-- Direct-branch result for the duration-probe counterexample, with a
distinctive transcript. -/
def c9_direct_result : TranscriptionResult :=
  { success := true, audio_id := "id", full_transcript := "DIRECT", segments := [] }

/-- Environment for the duration-probe counterexample: the probe fails, the
file size is within the limit. -/
def c9_env : PipelineEnv :=
  { fileExists := true, audio_id := "id", max_file_size_mb := 25,
    optimizeResult := Except.ok (10, none),
    durationProbe := Except.error "ffprobe failed",
    directResult := some c9_direct_result,
    chunkedResult := { success := true, audio_id := "id", full_transcript := "CHUNKED",
                       segments := [] } }

/-- C9 counterexample: when the probe fails the caller substitutes 0, and the
strategy decision does rely on that 0 as evidence that the audio fits the
safe ceiling: the run is routed to the direct path (transcript "DIRECT"),
while the same file with its duration measured as 2400 s would be chunked. -/
theorem duration_zero_not_treated_as_unknown :
    duration_or_zero c9_env.durationProbe = 0 ∧
    strategy_of 10 (duration_or_zero c9_env.durationProbe) 25 = Strategy.direct ∧
    (transcribe_audio_model c9_env).full_transcript = "DIRECT" ∧
    strategy_of 10 2400 25 = Strategy.chunked := by
  refine ⟨rfl, by decide, ?_, by decide⟩
  rfl

/-- C9 amended: when the duration probe fails, `transcribe_audio` substitutes
0 for the duration, and the strategy decision treats that 0 as satisfying the
safe-duration test: every file whose size is within the upload limit is
routed to the direct path even though its duration is unknown. -/
theorem probe_failure_defaults_to_direct (e : String) (sizeMb maxMb : ℚ)
    (hsize : sizeMb ≤ maxMb) :
    duration_or_zero (Except.error e) = 0 ∧
    strategy_of sizeMb (duration_or_zero (Except.error e)) maxMb = Strategy.direct := by
  refine ⟨rfl, ?_⟩
  unfold strategy_of
  rw [if_pos]
  exact ⟨hsize, by unfold duration_or_zero safe_duration_limit; norm_num⟩

/-- Witness for the probe-failure behaviour at size 10 MB, limit 25 MB. -/
theorem probe_failure_defaults_to_direct_witness :
    (10:ℚ) ≤ 25 ∧
      strategy_of 10 (duration_or_zero (Except.error "boom")) 25 = Strategy.direct :=
  ⟨by norm_num, (probe_failure_defaults_to_direct "boom" 10 25 (by norm_num)).2⟩

lemma chunked_run_error_message_none (audio_id : String) (chunks : List (ℚ × ℚ))
    (outcomes : ℕ → Except String (Option String)) :
    (chunked_run_result audio_id chunks outcomes).error_message = none := rfl

/-- C6 amended direction: in every result the pipeline model can return, a
present error message implies `success = False`.  The hypotheses tie the
branch results to the functions that produce them in the source. -/
theorem error_message_only_if_failure (env : PipelineEnv)
    (hdir : ∃ a api, env.directResult = transcribe_direct_model a api)
    (hchk : ∃ a p o, env.chunkedResult = transcribe_chunked_model a p o) :
    (transcribe_audio_model env).error_message.isSome = true →
    (transcribe_audio_model env).success = false := by
  obtain ⟨a, api, hd⟩ := hdir
  obtain ⟨a', p, o, hc⟩ := hchk
  unfold transcribe_audio_model transcribe_audio_body
  by_cases hex : env.fileExists = false
  · rw [if_pos hex]
    intro _
    rfl
  · rw [if_neg hex]
    cases hopt : env.optimizeResult with
    | error e =>
      intro _
      rfl
    | ok fs_opt =>
      obtain ⟨fs, opt⟩ := fs_opt
      dsimp only
      cases hstrat : strategy_of fs (duration_or_zero env.durationProbe)
          env.max_file_size_mb with
      | direct =>
        rw [hd]
        cases api with
        | error e =>
          intro _
          rfl
        | ok t? =>
          cases t? with
          | none =>
            intro _
            rfl
          | some t =>
            by_cases ht : t = ""
            · subst ht
              intro _
              rfl
            · intro hmsg
              simp [transcribe_direct_model, ht] at hmsg
      | chunked =>
        rw [hc]
        cases p with
        | error e =>
          intro _
          rfl
        | ok total =>
          intro hmsg
          simp [transcribe_chunked_model, chunked_run_result] at hmsg

/-- Environment for the C6 counterexample: an oversized file, duration 400 s
re-probed inside the chunked path, every chunk's API call failing. -/
def c6_env : PipelineEnv :=
  { fileExists := true, audio_id := "id", max_file_size_mb := 25,
    optimizeResult := Except.ok (30, some "chunking_required"),
    durationProbe := Except.ok 400,
    directResult := none,
    chunkedResult := transcribe_chunked_model "id" (Except.ok 400)
      (fun _ => Except.error "boom") }

lemma c6_env_success_false : (transcribe_audio_model c6_env).success = false := by
  have hnil : (process_chunks (fun _ => Except.error "boom") 0
      (create_intelligent_chunks_ffmpeg 400 effective_duration_limit)).1 = [] := by
    rw [(process_chunks_spec (fun _ => Except.error "boom")
      (create_intelligent_chunks_ffmpeg 400 effective_duration_limit) 0).1,
      List.filterMap_eq_nil_iff]
    intro p _
    rfl
  have hbody : transcribe_audio_body c6_env =
      Except.ok { transcribe_chunked_model "id" (Except.ok 400)
          (fun _ => Except.error "boom") with
        file_size_mb := 30, optimization_applied := some "chunking_required" } := rfl
  unfold transcribe_audio_model
  rw [hbody]
  show (transcribe_chunked_model "id" (Except.ok 400)
    (fun _ => Except.error "boom")).success = false
  unfold transcribe_chunked_model chunked_run_result
  dsimp only
  rw [hnil]
  rfl

/-- C6 counterexample: a chunked run in which every chunk fails returns
`success = False` with NO error message (lines 1144-1153 never set one), so
the claimed equivalence between a present error message and failure is
false for this pipeline result. -/
theorem error_message_iff_failure_counterexample :
    ¬ (((transcribe_audio_model c6_env).error_message.isSome = true) ↔
        ((transcribe_audio_model c6_env).success = false)) := by
  intro hiff
  have hsucc := c6_env_success_false
  have hmsg : (transcribe_audio_model c6_env).error_message = none := rfl
  have := hiff.mpr hsucc
  rw [hmsg] at this
  exact absurd this (by simp)

/-- Witness for the amended C6 theorem: a failing direct call yields a
result with an error message, and the theorem concludes failure. -/
def c6w_env : PipelineEnv :=
  { fileExists := true, audio_id := "id", max_file_size_mb := 25,
    optimizeResult := Except.ok (10, none),
    durationProbe := Except.ok 100,
    directResult := transcribe_direct_model "id" (Except.error "auth denied"),
    chunkedResult := transcribe_chunked_model "id" (Except.ok 400)
      (fun _ => Except.error "boom") }

theorem error_message_only_if_failure_witness :
    (transcribe_audio_model c6w_env).error_message.isSome = true ∧
    (transcribe_audio_model c6w_env).success = false := by
  have hmsg : (transcribe_audio_model c6w_env).error_message.isSome = true := rfl
  exact ⟨hmsg, error_message_only_if_failure c6w_env
    ⟨"id", Except.error "auth denied", rfl⟩
    ⟨"id", Except.ok 400, (fun _ => Except.error "boom"), rfl⟩ hmsg⟩

/-! ### Compression frame effect: `_try_compression` (lines 540-706),
`_try_compression_pydub_fallback` (lines 708-768), end-of-call cleanup
(lines 264-266)

File-system state is a map from path strings to abstract audio contents.
Both compression paths write the compressed output to a temp path, unlink
the original and rename the temp file onto the original path (lines
694-698 and 758-762).  In `_try_compression`: a missing FFmpeg binary
diverts to the PyDub fallback (line 564), an FFmpeg failure (nonzero
return code or missing output) returns `None` without mutating the input
(lines 669-679), and an exception diverts to the fallback (line 706). -/

inductive AudioContent
  | source (id : ℕ)
  | compressed (c : AudioContent)
deriving DecidableEq

def FS : Type := String → Option AudioContent

def FS.update (fs : FS) (p : String) (v : Option AudioContent) : FS :=
  fun q => if q = p then v else fs q

/-- `audio_path.unlink(); temp_compressed_path.rename(audio_path)` preceded
by the write of the compressed output to the temp path. -/
def in_place_replace (fs : FS) (audio_path temp_path : String) : FS :=
  let fs1 := FS.update fs temp_path ((fs audio_path).map AudioContent.compressed)
  let fs2 := FS.update fs1 audio_path none
  let fs3 := FS.update fs2 audio_path (fs2 temp_path)
  FS.update fs3 temp_path none

inductive FfmpegOutcome
  | success
  | failure
  | raised
deriving DecidableEq

/-- `_try_compression_pydub_fallback`: on success the input path is
overwritten in place and returned; on failure `None`. -/
def try_compression_pydub_fallback (fs : FS) (audio_path temp_path : String)
    (pydubOk : Bool) : FS × Option String :=
  if pydubOk then (in_place_replace fs audio_path temp_path, some audio_path)
  else (fs, none)

/-- `_try_compression`. -/
def try_compression (fs : FS) (audio_path temp_path : String)
    (ffmpegAvailable : Bool) (ffmpegOutcome : FfmpegOutcome) (pydubOk : Bool) :
    FS × Option String :=
  if ffmpegAvailable = false then
    try_compression_pydub_fallback fs audio_path temp_path pydubOk
  else
    match ffmpegOutcome with
    | FfmpegOutcome.success => (in_place_replace fs audio_path temp_path, some audio_path)
    | FfmpegOutcome.failure => (fs, none)
    | FfmpegOutcome.raised => try_compression_pydub_fallback fs audio_path temp_path pydubOk

/-- The cleanup of `transcribe_audio` lines 264-266:
`if optimized_path != audio_path: self._cleanup_temp_file(optimized_path)`. -/
def end_of_call_cleanup (fs : FS) (optimized_path audio_path : String) : FS :=
  if optimized_path ≠ audio_path then FS.update fs optimized_path none else fs

lemma compressed_ne (c : AudioContent) : AudioContent.compressed c ≠ c := by
  induction c with
  | source i => intro h; exact AudioContent.noConfusion h
  | compressed c ih =>
    intro h
    injection h with h2
    exact ih h2

lemma in_place_replace_spec (fs : FS) (a t : String) (orig : AudioContent)
    (horig : fs a = some orig) (hne : t ≠ a) :
    in_place_replace fs a t a = some (AudioContent.compressed orig) ∧
    in_place_replace fs a t t = none := by
  unfold in_place_replace FS.update
  refine ⟨?_, ?_⟩
  · simp [Ne.symm hne, hne, horig]
  · simp

/-- C10: whenever compression succeeds - through FFmpeg or through the
PyDub fallback - the returned path IS the caller-supplied input path, the
file there now holds the compressed (strictly different) content while the
original content is gone from that path, the temp file is removed, and the
end-of-call cleanup is a no-op on this file because the optimized path
equals the input path. -/
theorem compression_overwrites_input_in_place (fs : FS) (audio_path temp_path : String)
    (ffmpegAvailable : Bool) (ffmpegOutcome : FfmpegOutcome) (pydubOk : Bool)
    (orig : AudioContent) (horig : fs audio_path = some orig)
    (hne : temp_path ≠ audio_path) (p : String)
    (hsucc : (try_compression fs audio_path temp_path ffmpegAvailable
      ffmpegOutcome pydubOk).2 = some p) :
    p = audio_path ∧
    (try_compression fs audio_path temp_path ffmpegAvailable ffmpegOutcome pydubOk).1
        audio_path = some (AudioContent.compressed orig) ∧
    (try_compression fs audio_path temp_path ffmpegAvailable ffmpegOutcome pydubOk).1
        audio_path ≠ some orig ∧
    (try_compression fs audio_path temp_path ffmpegAvailable ffmpegOutcome pydubOk).1
        temp_path = none ∧
    end_of_call_cleanup
        (try_compression fs audio_path temp_path ffmpegAvailable ffmpegOutcome pydubOk).1
        p audio_path =
      (try_compression fs audio_path temp_path ffmpegAvailable ffmpegOutcome pydubOk).1 ∧
    end_of_call_cleanup
        (try_compression fs audio_path temp_path ffmpegAvailable ffmpegOutcome pydubOk).1
        p audio_path audio_path = some (AudioContent.compressed orig) := by
  have hfs : (try_compression fs audio_path temp_path ffmpegAvailable
        ffmpegOutcome pydubOk).1 = in_place_replace fs audio_path temp_path ∧
      p = audio_path := by
    unfold try_compression try_compression_pydub_fallback at hsucc ⊢
    by_cases hav : ffmpegAvailable = false
    · rw [if_pos hav] at hsucc ⊢
      by_cases hok : pydubOk = true
      · rw [if_pos hok] at hsucc ⊢
        exact ⟨rfl, by injection hsucc with h; exact h.symm⟩
      · rw [if_neg hok] at hsucc
        exact absurd hsucc (by simp)
    · rw [if_neg hav] at hsucc ⊢
      cases ffmpegOutcome with
      | success =>
        exact ⟨rfl, by injection hsucc with h; exact h.symm⟩
      | failure => exact absurd hsucc (by simp)
      | raised =>
        by_cases hok : pydubOk = true
        · rw [if_pos hok] at hsucc ⊢
          exact ⟨rfl, by injection hsucc with h; exact h.symm⟩
        · rw [if_neg hok] at hsucc
          exact absurd hsucc (by simp)
  obtain ⟨hrepl, hp⟩ := hfs
  obtain ⟨hat, htmp⟩ := in_place_replace_spec fs audio_path temp_path orig horig hne
  have hclean : end_of_call_cleanup (in_place_replace fs audio_path temp_path)
      audio_path audio_path = in_place_replace fs audio_path temp_path := by
    unfold end_of_call_cleanup
    rw [if_neg (by simp)]
  refine ⟨hp, ?_, ?_, ?_, ?_, ?_⟩
  · rw [hrepl, hat]
  · rw [hrepl, hat]
    intro h
    injection h with h2
    exact compressed_ne orig h2
  · rw [hrepl, htmp]
  · rw [hp, hrepl, hclean]
  · rw [hp, hrepl, hclean, hat]

/-- Initial file system for the compression witness. -/
def c10_fs : FS :=
  fun q => if q = "in.mp3" then some (AudioContent.source 0) else none

/-- Witness: a successful FFmpeg compression of `in.mp3` leaves the
compressed content at `in.mp3` itself, removes the temp file, and the
end-of-call cleanup does not touch it. -/
theorem compression_overwrites_input_in_place_witness :
    c10_fs "in.mp3" = some (AudioContent.source 0) ∧
    (try_compression c10_fs "in.mp3" "tmp/compressed_in.mp3" true
        FfmpegOutcome.success false).1 "in.mp3"
      = some (AudioContent.compressed (AudioContent.source 0)) ∧
    end_of_call_cleanup
        (try_compression c10_fs "in.mp3" "tmp/compressed_in.mp3" true
          FfmpegOutcome.success false).1 "in.mp3" "in.mp3" "in.mp3"
      = some (AudioContent.compressed (AudioContent.source 0)) := by
  have h := compression_overwrites_input_in_place c10_fs "in.mp3" "tmp/compressed_in.mp3"
    true FfmpegOutcome.success false (AudioContent.source 0) (by rfl) (by decide)
    "in.mp3" rfl
  exact ⟨rfl, h.2.1, h.2.2.2.2.2⟩

end Transcriber
